import Mathlib

/-!
# YabLoc `sign_detector`: ground-plane projection of detected line segments

A shallow embedding of `src/sign_detector/lib/lsd.cpp`
(`LineSegmentDetector::imageCallback`, `listenExtrinsicTf`,
`projectEdgeOnPlane`) and the properties of its specification.

Numbers are elements of an arbitrary linearly ordered field `α` (exact
arithmetic): the C++ `float`/`double` values are read as the numbers they
denote, and rounding is not modelled.  Every definition is computable and
can be evaluated at `α = ℚ`.

Operations of the Eigen and OpenCV libraries are written out where they
are algebraic (`normalized`, `inverse`, `toRotationMatrix`, `isZero`,
`cv::Mat::zeros`) and taken as parameters where they are not
(`sqrt`, the quaternion of `Affine3f::rotation()`, `cv::line`).
-/

namespace YabLoc

/-! ## Eigen value types -/

/-- Eigen `Vector2f`: a pixel coordinate. -/
structure Vector2f (α : Type) where
  x : α
  y : α
deriving DecidableEq

/-- Eigen `Vector3f`. -/
structure Vector3f (α : Type) where
  x : α
  y : α
  z : α
deriving DecidableEq

/-- Eigen `Matrix3f` (also used for the 3x3 `cv::Mat` of the intrinsics);
`mij` is the entry of row `i`, column `j`. -/
structure Matrix3f (α : Type) where
  m00 : α
  m01 : α
  m02 : α
  m10 : α
  m11 : α
  m12 : α
  m20 : α
  m21 : α
  m22 : α
deriving DecidableEq

/-- Eigen `Quaternionf`. -/
structure Quaternionf (α : Type) where
  w : α
  x : α
  y : α
  z : α
deriving DecidableEq

/-- Eigen `Affine3f`, by its translation and its 3x3 linear part (the
bottom row of the 4x4 matrix stays `0 0 0 1`). -/
structure Affine3f (α : Type) where
  translation : Vector3f α
  linear : Matrix3f α
deriving DecidableEq

section Defs

variable {α : Type} [LinearOrderedField α]

/-- The vector `Eigen::Vector3f::Zero()`: the degenerate marker returned by `conv`. -/
def Vector3f.Zero : Vector3f α := ⟨0, 0, 0⟩

/-- Sum of two vectors. -/
def Vector3f.add (a b : Vector3f α) : Vector3f α :=
  ⟨a.x + b.x, a.y + b.y, a.z + b.z⟩

/-- Scalar multiple `l * b` of a vector. -/
def Vector3f.smul (l : α) (b : Vector3f α) : Vector3f α :=
  ⟨l * b.x, l * b.y, l * b.z⟩

/-- Eigen `squaredNorm()`. -/
def Vector3f.squaredNorm (v : Vector3f α) : α :=
  v.x * v.x + v.y * v.y + v.z * v.z

/-- Eigen `normalized()`: it divides by the square root of the squared norm
when that is positive and returns the vector unchanged otherwise. The
square root is the parameter `sqrt`. -/
def Vector3f.normalized (sqrt : α → α) (v : Vector3f α) : Vector3f α :=
  let z := v.squaredNorm
  if 0 < z then ⟨v.x / sqrt z, v.y / sqrt z, v.z / sqrt z⟩ else v

/-- Eigen `dummy_precision<float>()`, the default tolerance of `isZero`. -/
def dummy_precision : α := 1 / 100000

/-- Eigen `isZero()` with the default precision: every coefficient `c` satisfies
`|c| <= 1 * dummy_precision`. -/
def Vector3f.isZero (v : Vector3f α) : Bool :=
  decide (|v.x| ≤ dummy_precision) && decide (|v.y| ≤ dummy_precision)
    && decide (|v.z| ≤ dummy_precision)

/-- Matrix times vector. -/
def Matrix3f.mulVec (m : Matrix3f α) (v : Vector3f α) : Vector3f α :=
  ⟨m.m00 * v.x + m.m01 * v.y + m.m02 * v.z,
   m.m10 * v.x + m.m11 * v.y + m.m12 * v.z,
   m.m20 * v.x + m.m21 * v.y + m.m22 * v.z⟩

/-- Matrix times matrix. -/
def Matrix3f.mul (a b : Matrix3f α) : Matrix3f α :=
  ⟨a.m00 * b.m00 + a.m01 * b.m10 + a.m02 * b.m20,
   a.m00 * b.m01 + a.m01 * b.m11 + a.m02 * b.m21,
   a.m00 * b.m02 + a.m01 * b.m12 + a.m02 * b.m22,
   a.m10 * b.m00 + a.m11 * b.m10 + a.m12 * b.m20,
   a.m10 * b.m01 + a.m11 * b.m11 + a.m12 * b.m21,
   a.m10 * b.m02 + a.m11 * b.m12 + a.m12 * b.m22,
   a.m20 * b.m00 + a.m21 * b.m10 + a.m22 * b.m20,
   a.m20 * b.m01 + a.m21 * b.m11 + a.m22 * b.m21,
   a.m20 * b.m02 + a.m21 * b.m12 + a.m22 * b.m22⟩

/-- Scalar times matrix (`SCALE * K`). -/
def Matrix3f.scale (s : α) (m : Matrix3f α) : Matrix3f α :=
  ⟨s * m.m00, s * m.m01, s * m.m02,
   s * m.m10, s * m.m11, s * m.m12,
   s * m.m20, s * m.m21, s * m.m22⟩

/-- Determinant, expanded along the first column as Eigen does for the
3x3 inverse. -/
def Matrix3f.determinant (m : Matrix3f α) : α :=
  (m.m11 * m.m22 - m.m12 * m.m21) * m.m00
    + (m.m12 * m.m20 - m.m10 * m.m22) * m.m01
    + (m.m10 * m.m21 - m.m11 * m.m20) * m.m02

/-- Eigen `inverse()` of a 3x3 matrix: the cofactor matrix transposed, times
`1 / det`. -/
def Matrix3f.inverse (m : Matrix3f α) : Matrix3f α :=
  let invdet := 1 / m.determinant
  ⟨(m.m11 * m.m22 - m.m12 * m.m21) * invdet,
   (m.m02 * m.m21 - m.m01 * m.m22) * invdet,
   (m.m01 * m.m12 - m.m02 * m.m11) * invdet,
   (m.m12 * m.m20 - m.m10 * m.m22) * invdet,
   (m.m00 * m.m22 - m.m02 * m.m20) * invdet,
   (m.m02 * m.m10 - m.m00 * m.m12) * invdet,
   (m.m10 * m.m21 - m.m11 * m.m20) * invdet,
   (m.m01 * m.m20 - m.m00 * m.m21) * invdet,
   (m.m00 * m.m11 - m.m01 * m.m10) * invdet⟩

/-- Eigen `Quaternionf::toRotationMatrix()`. -/
def Quaternionf.toRotationMatrix (q : Quaternionf α) : Matrix3f α :=
  let tx := 2 * q.x
  let ty := 2 * q.y
  let tz := 2 * q.z
  let twx := tx * q.w
  let twy := ty * q.w
  let twz := tz * q.w
  let txx := tx * q.x
  let txy := ty * q.x
  let txz := tz * q.x
  let tyy := ty * q.y
  let tyz := tz * q.y
  let tzz := tz * q.z
  ⟨1 - (tyy + tzz), txy - twz, txz + twy,
   txy + twz, 1 - (txx + tzz), tyz - twx,
   txz - twy, tyz + twx, 1 - (txx + tyy)⟩

/-- Eigen `Quaternionf::Identity()`. -/
def Quaternionf.Identity : Quaternionf α := ⟨1, 0, 0, 0⟩

/-! ## `imageCallback`: the scaled intrinsic matrix -/

/-- Lines 42-43 of `lsd.cpp`: `scaled_K = SCALE * K; scaled_K(2,2) = 1`. -/
def scaled_K (SCALE : α) (K : Matrix3f α) : Matrix3f α :=
  { Matrix3f.scale SCALE K with m22 := 1 }

/-! ## `projectEdgeOnPlane`: the lambda `conv` -/

/-- The bearing of `conv` (lines 91-92):
`u3 = (u.x, u.y, 1)`, `bearing = (q * K_inv * u3).normalized()`.
`q * K_inv` is the rotation matrix of `q` times `K_inv`. -/
def bearing (sqrt : α → α) (q : Quaternionf α) (K_inv : Matrix3f α)
    (u : Vector2f α) : Vector3f α :=
  let u3 : Vector3f α := ⟨u.x, u.y, 1⟩
  Vector3f.normalized sqrt ((q.toRotationMatrix.mul K_inv).mulVec u3)

/-- The intersection parameter of `conv` (line 95): `l = -t.z / bearing.z`. -/
def rayParameter (t b : Vector3f α) : α := -t.z / b.z

/-- The lambda `conv` of `projectEdgeOnPlane` (lines 90-100). -/
def conv (sqrt : α → α) (t : Vector3f α) (q : Quaternionf α)
    (K_inv : Matrix3f α) (u : Vector2f α) : Vector3f α :=
  let b := bearing sqrt q K_inv u
  if b.z > -(1 / 10) then Vector3f.Zero
  else
    let l := rayParameter t b
    let projected_x := t.x + b.x * l
    let projected_y := t.y + b.y * l
    ⟨projected_x, projected_y, 0⟩

/-! ## `projectEdgeOnPlane`: edges and the top-down raster -/

/-- The local `struct Edge` of `projectEdgeOnPlane`: two projected points. -/
structure Edge (α : Type) where
  p : Vector3f α
  q : Vector3f α

/-- One row of the `cv::Mat lines` of the detector: `(x1, y1, x2, y2)`. -/
structure Vec4f (α : Type) where
  v0 : α
  v1 : α
  v2 : α
  v3 : α

/-- A `cv::Point`: integer column `x` and row `y`. -/
structure Point where
  x : Int
  y : Int
deriving DecidableEq

/-- One `CV_8UC3` pixel. -/
abbrev Pixel := Nat × Nat × Nat

/-- A `cv::Mat` of type `CV_8UC3`: its size and its rows of pixels. -/
structure Mat where
  rows : Nat
  cols : Nat
  data : List (List Pixel)
deriving DecidableEq

/-- OpenCV `cv::Mat::zeros(cv::Size(width, height), CV_8UC3)`. -/
def Mat.zeros (width height : Nat) : Mat :=
  ⟨height, width, List.replicate height (List.replicate width (0, 0, 0))⟩

/-- The message handed to `pub_image_->publish`. -/
structure ImageMsg where
  stamp : Nat
  frame_id : String
  encoding : String
  image : Mat
deriving DecidableEq

/-- Conversion of a floating value to `int` (assignment to `pt.x`, `pt.y`):
truncation toward zero. -/
def truncToInt [FloorRing α] (v : α) : Int :=
  if 0 ≤ v then Int.floor v else Int.ceil v

/-- The lambda `toCvPoint` (lines 116-121); `center_width` and
`center_height` are the fields of `center`. -/
def toCvPoint [FloorRing α] (center_width center_height : Int) (max_range_ : α)
    (v : Vector3f α) : Point :=
  ⟨truncToInt (-v.y / max_range_ * (center_width : α) + (center_width : α)),
   truncToInt (-v.x / max_range_ * (center_height : α)
     + ((2 * center_height : Int) : α))⟩

/-- The edge loop (lines 102-110): both endpoints of every row of `lines`
go through `conv`. -/
def collectEdges (sqrt : α → α) (t : Vector3f α) (q : Quaternionf α)
    (K_inv : Matrix3f α) (lines : List (Vec4f α)) : List (Edge α) :=
  lines.map fun xyxy =>
    let xy1 : Vector2f α := ⟨xyxy.v0, xyxy.v1⟩
    let xy2 : Vector2f α := ⟨xyxy.v2, xyxy.v3⟩
    ⟨conv sqrt t q K_inv xy1, conv sqrt t q K_inv xy2⟩

/-- The draw loop (lines 122-125). `line image a b` stands for
`cv::line(image, a, b, cv::Scalar(0, 255, 255), 2, cv::LINE_8)`. -/
def drawEdges (line : Mat → Point → Point → Mat) (toPt : Vector3f α → Point) :
    Mat → List (Edge α) → Mat
  | image, [] => image
  | image, e :: es =>
    if e.p.isZero || e.q.isZero then drawEdges line toPt image es
    else drawEdges line toPt (line image (toPt e.p) (toPt e.q)) es

/-- The library operations `projectEdgeOnPlane` calls that are not written
out here. -/
structure External (α : Type) where
  /-- The square root inside `normalized()`. -/
  sqrt : α → α
  /-- The constructor `Eigen::Quaternionf(camera_extrinsic_->rotation())`. -/
  quaternionOfLinear : Matrix3f α → Quaternionf α
  /-- The stroke `cv::line(image, a, b, cv::Scalar(0, 255, 255), 2, cv::LINE_8)`. -/
  line : Mat → Point → Point → Mat

/-- The members of `LineSegmentDetector` the functions read and write.
`pub_image_` is the list of messages published so far on that publisher;
logging is not modelled. -/
structure LineSegmentDetector (α : Type) where
  camera_extrinsic_ : Option (Affine3f α)
  image_size_ : Nat
  max_range_ : α
  pub_image_ : List ImageMsg

/-- The raster drawn by `projectEdgeOnPlane` (lines 113-126) from the
collected edges. -/
def edgeImage [FloorRing α] (line : Mat → Point → Point → Mat) (image_size_ : Nat)
    (max_range_ : α) (edges : List (Edge α)) : Mat :=
  let image := Mat.zeros image_size_ image_size_
  let center_width : Int := ((image.cols / 2 : Nat) : Int)
  let center_height : Int := ((image.rows / 2 : Nat) : Int)
  drawEdges line (toCvPoint center_width center_height max_range_) image edges

/-- The method `LineSegmentDetector::projectEdgeOnPlane` (lines 68-137). -/
def projectEdgeOnPlane [FloorRing α] (ext : External α) (self : LineSegmentDetector α)
    (lines : List (Vec4f α)) (K_cv : Matrix3f α) (stamp : Nat) :
    LineSegmentDetector α :=
  match self.camera_extrinsic_ with
  | none => self
  | some extrinsic =>
    let t := extrinsic.translation
    let q := ext.quaternionOfLinear extrinsic.linear
    let K := K_cv
    let K_inv := K.inverse
    let edges := collectEdges ext.sqrt t q K_inv lines
    let image := edgeImage ext.line self.image_size_ self.max_range_ edges
    { self with pub_image_ := self.pub_image_ ++ [⟨stamp, "map", "bgr8", image⟩] }

/-! ## `listenExtrinsicTf`: the pose slot -/

/-- The `transform` field of a `geometry_msgs::msg::TransformStamped`. -/
structure Transform (α : Type) where
  translation : Vector3f α
  rotation : Quaternionf α

/-- The method `LineSegmentDetector::listenExtrinsicTf` (lines 47-66). The argument
`lookup` is the outcome of `tf_buffer_->lookupTransform`: `none` when it
throws `tf2::TransformException`. -/
def listenExtrinsicTf (lookup : Option (Transform α)) (self : LineSegmentDetector α) :
    LineSegmentDetector α :=
  match lookup with
  | some ts =>
    let p : Vector3f α := ⟨ts.translation.x, ts.translation.y, ts.translation.z⟩
    let q : Quaternionf α := ⟨ts.rotation.w, ts.rotation.x, ts.rotation.y, ts.rotation.z⟩
    { self with camera_extrinsic_ := some ⟨p, q.toRotationMatrix⟩ }
  | none => self

/-- A run of `listenExtrinsicTf` over the outcomes of successive lookups,
oldest first. -/
def listenAll (lookups : List (Option (Transform α))) (self : LineSegmentDetector α) :
    LineSegmentDetector α :=
  lookups.foldl (fun s r => listenExtrinsicTf r s) self

/-! ## Predicates of the specification -/

/-- The pixel `pt` lies inside an `S x S` raster. -/
def insideRaster (S : Int) (pt : Point) : Prop :=
  0 ≤ pt.x ∧ pt.x < S ∧ 0 ≤ pt.y ∧ pt.y < S

instance (S : Int) (pt : Point) : Decidable (insideRaster S pt) := by
  unfold insideRaster
  infer_instance

/-- The plane point `v` lies within `|x| <= R` and `|y| <= R`. -/
def withinRange (R : α) (v : Vector3f α) : Prop :=
  |v.x| ≤ R ∧ |v.y| ≤ R

instance (R : α) (v : Vector3f α) : Decidable (withinRange R v) := by
  unfold withinRange
  infer_instance

/-- The plane point `v` lies ahead of the vehicle and within range:
`0 < x <= R` and `-R < y <= R`. -/
def aheadWithinRange (R : α) (v : Vector3f α) : Prop :=
  0 < v.x ∧ v.x ≤ R ∧ -R < v.y ∧ v.y ≤ R

instance (R : α) (v : Vector3f α) : Decidable (aheadWithinRange R v) := by
  unfold aheadWithinRange
  infer_instance

end Defs

/-! ## Concrete data used by the scenarios -/

/-- The intrinsic matrix of the scenarios: focal length 500, principal
point (400, 300). -/
def scenarioK : Matrix3f ℚ := ⟨500, 0, 400, 0, 500, 300, 0, 0, 1⟩

/-- A half turn about the x axis: the camera looks straight down. -/
def downQ : Quaternionf ℚ := ⟨0, 1, 0, 0⟩

/-- Library operations over `ℚ` used to evaluate the model on concrete
inputs: the rational square root (exact on squares), a quaternion
constructor that is exact on the two rotations of the scenarios (the half
turn `downQ` and the identity), and a stroke that replaces the raster by a
single yellow pixel, so that any stroke shows in the result. -/
def ratExternal : External ℚ :=
  ⟨Rat.sqrt,
   fun m => if m = downQ.toRotationMatrix then downQ else Quaternionf.Identity,
   fun _ _ _ => ⟨1, 1, [[(0, 255, 255)]]⟩⟩

section Lemmas

variable {α : Type} [LinearOrderedField α]

theorem Vector3f.isZero_Zero : (Vector3f.Zero : Vector3f α).isZero = true := by
  simp [Vector3f.isZero, Vector3f.Zero, dummy_precision]

theorem conv_of_rejected (sqrt : α → α) (t : Vector3f α) (q : Quaternionf α)
    (K_inv : Matrix3f α) (u : Vector2f α)
    (h : (bearing sqrt q K_inv u).z > -(1 / 10)) :
    conv sqrt t q K_inv u = Vector3f.Zero := by
  unfold conv
  exact if_pos h

theorem conv_of_visible (sqrt : α → α) (t : Vector3f α) (q : Quaternionf α)
    (K_inv : Matrix3f α) (u : Vector2f α)
    (h : (bearing sqrt q K_inv u).z ≤ -(1 / 10)) :
    conv sqrt t q K_inv u =
      ⟨t.x + (bearing sqrt q K_inv u).x * rayParameter t (bearing sqrt q K_inv u),
       t.y + (bearing sqrt q K_inv u).y * rayParameter t (bearing sqrt q K_inv u), 0⟩ := by
  have h2 : ¬ (bearing sqrt q K_inv u).z > -(1 / 10) := not_lt.mpr h
  unfold conv
  exact if_neg h2

theorem drawEdges_append (line : Mat → Point → Point → Mat) (toPt : Vector3f α → Point)
    (es1 es2 : List (Edge α)) (image : Mat) :
    drawEdges line toPt image (es1 ++ es2)
      = drawEdges line toPt (drawEdges line toPt image es1) es2 := by
  induction es1 generalizing image with
  | nil => rfl
  | cons e es ih =>
    by_cases h : (e.p.isZero || e.q.isZero) = true
    · simp only [List.cons_append, drawEdges, h, if_true]
      exact ih image
    · simp only [List.cons_append, drawEdges, h, if_false]
      exact ih _

theorem drawEdges_skipped (line : Mat → Point → Point → Mat) (toPt : Vector3f α → Point)
    (es : List (Edge α)) (image : Mat)
    (h : ∀ e ∈ es, (e.p.isZero || e.q.isZero) = true) :
    drawEdges line toPt image es = image := by
  induction es with
  | nil => rfl
  | cons e es ih =>
    have he := h e (List.mem_cons_self _ _)
    simp only [drawEdges, he, if_true]
    exact ih (fun e2 h2 => h e2 (List.mem_cons_of_mem _ h2))

theorem drawEdges_eq_foldl (line : Mat → Point → Point → Mat) (toPt : Vector3f α → Point)
    (es : List (Edge α)) (image : Mat) :
    drawEdges line toPt image es
      = (es.filter fun e => !(e.p.isZero || e.q.isZero)).foldl
          (fun im e => line im (toPt e.p) (toPt e.q)) image := by
  induction es generalizing image with
  | nil => rfl
  | cons e es ih =>
    by_cases h : (e.p.isZero || e.q.isZero) = true
    · simp only [drawEdges, h, if_true, List.filter, Bool.not_true]
      exact ih image
    · have h2 : (e.p.isZero || e.q.isZero) = false := by simpa using h
      simp only [drawEdges, h, if_false, List.filter, h2, Bool.not_false, List.foldl]
      exact ih _

theorem bearing_scenario_up :
    bearing Rat.sqrt Quaternionf.Identity scenarioK.inverse ⟨400, 300⟩ = ⟨0, 0, 1⟩ := by
  norm_num [bearing, scenarioK, Quaternionf.Identity, Matrix3f.inverse,
    Matrix3f.determinant, Matrix3f.mul, Matrix3f.mulVec, Quaternionf.toRotationMatrix,
    Vector3f.normalized, Vector3f.squaredNorm]

theorem bearing_scenario_down :
    bearing Rat.sqrt downQ scenarioK.inverse ⟨400, 300⟩ = ⟨0, 0, -1⟩ := by
  norm_num [bearing, scenarioK, downQ, Matrix3f.inverse,
    Matrix3f.determinant, Matrix3f.mul, Matrix3f.mulVec, Quaternionf.toRotationMatrix,
    Vector3f.normalized, Vector3f.squaredNorm]

theorem bearing_scenario_slant :
    bearing Rat.sqrt downQ scenarioK.inverse ⟨775, 300⟩ = ⟨3 / 5, 0, -(4 / 5)⟩ := by
  have h : Rat.sqrt (25 / 16) = 5 / 4 := by
    have h1 := Rat.sqrt_eq (5 / 4)
    rw [abs_of_pos (by norm_num)] at h1
    rw [← h1]
    norm_num
  norm_num [bearing, scenarioK, downQ, Matrix3f.inverse,
    Matrix3f.determinant, Matrix3f.mul, Matrix3f.mulVec, Quaternionf.toRotationMatrix,
    Vector3f.normalized, Vector3f.squaredNorm, h]

theorem truncToInt_of_nonneg [FloorRing α] (v : α) (h : 0 ≤ v) :
    truncToInt v = Int.floor v := by
  unfold truncToInt
  exact if_pos h

theorem toCvPoint_inside [FloorRing α] (v : Vector3f α) (h : aheadWithinRange 20 v) :
    insideRaster 800 (toCvPoint 400 400 (20 : α) v) := by
  obtain ⟨hx0, hx1, hy0, hy1⟩ := h
  have hc0 : (0 : α) ≤ -v.y / 20 * ((400 : Int) : α) + ((400 : Int) : α) := by
    push_cast
    linarith
  have hc1 : -v.y / 20 * ((400 : Int) : α) + ((400 : Int) : α) < ((800 : Int) : α) := by
    push_cast
    linarith
  have hr0 : (0 : α) ≤ -v.x / 20 * ((400 : Int) : α) + ((2 * 400 : Int) : α) := by
    push_cast
    linarith
  have hr1 : -v.x / 20 * ((400 : Int) : α) + ((2 * 400 : Int) : α) < ((800 : Int) : α) := by
    push_cast
    linarith
  unfold insideRaster toCvPoint
  simp only
  rw [truncToInt_of_nonneg _ hc0, truncToInt_of_nonneg _ hr0]
  exact ⟨Int.floor_nonneg.mpr hc0, Int.floor_lt.mpr hc1, Int.floor_nonneg.mpr hr0,
    Int.floor_lt.mpr hr1⟩

theorem edgeImage_single [FloorRing α] (line : Mat → Point → Point → Mat) (e : Edge α)
    (hp : e.p.isZero = false) (hq : e.q.isZero = false) :
    edgeImage line 800 (20 : α) [e]
      = line (Mat.zeros 800 800) (toCvPoint 400 400 (20 : α) e.p)
          (toCvPoint 400 400 (20 : α) e.q) := by
  have hw : (((Mat.zeros 800 800).cols / 2 : Nat) : Int) = 400 := rfl
  have hh : (((Mat.zeros 800 800).rows / 2 : Nat) : Int) = 400 := rfl
  unfold edgeImage
  simp only [hw, hh, drawEdges, hp, hq, Bool.or_self, Bool.false_eq_true, if_false]

theorem edgeImage_skipped [FloorRing α] (line : Mat → Point → Point → Mat) (S : Nat)
    (R : α) (es : List (Edge α)) (h : ∀ e ∈ es, (e.p.isZero || e.q.isZero) = true) :
    edgeImage line S R es = Mat.zeros S S := by
  unfold edgeImage
  exact drawEdges_skipped line _ es _ h

theorem listenAll_append (l1 l2 : List (Option (Transform α)))
    (self : LineSegmentDetector α) :
    listenAll (l1 ++ l2) self = listenAll l2 (listenAll l1 self) := by
  unfold listenAll
  exact List.foldl_append _ _ _ _

theorem listenExtrinsicTf_absent_iff (r : Option (Transform α))
    (self : LineSegmentDetector α) :
    (listenExtrinsicTf r self).camera_extrinsic_ = none
      ↔ self.camera_extrinsic_ = none ∧ r = none := by
  cases r with
  | none => simp [listenExtrinsicTf]
  | some ts => simp [listenExtrinsicTf]

theorem listenAll_absent_iff (lookups : List (Option (Transform α)))
    (self : LineSegmentDetector α) :
    (listenAll lookups self).camera_extrinsic_ = none
      ↔ self.camera_extrinsic_ = none ∧ ∀ r ∈ lookups, r = none := by
  induction lookups generalizing self with
  | nil => simp [listenAll]
  | cons r rs ih =>
    have h : listenAll (r :: rs) self = listenAll rs (listenExtrinsicTf r self) := rfl
    rw [h, ih, listenExtrinsicTf_absent_iff]
    simp only [List.mem_cons, forall_eq_or_imp]
    tauto

end Lemmas

/-! ## The claims -/

section Claims

variable {α : Type} [LinearOrderedField α]

/-- C1: intersection postcondition of `conv`. For every translation `t`,
rotation `q`, inverse intrinsic matrix and pixel `u` whose bearing `b` has
`b.z <= -0.1`, `conv` returns exactly `(t.x + b.x*l, t.y + b.y*l, 0)` with
`l = -t.z / b.z`; its z component is 0 and it equals `t + l*b`, the point
of the ray from `t` along `b` on the plane `z = 0`. -/
theorem conv_intersection (sqrt : α → α) (t : Vector3f α) (q : Quaternionf α)
    (K_inv : Matrix3f α) (u : Vector2f α)
    (h : (bearing sqrt q K_inv u).z ≤ -(1 / 10)) :
    conv sqrt t q K_inv u
        = ⟨t.x + (bearing sqrt q K_inv u).x * (-t.z / (bearing sqrt q K_inv u).z),
           t.y + (bearing sqrt q K_inv u).y * (-t.z / (bearing sqrt q K_inv u).z), 0⟩
      ∧ (conv sqrt t q K_inv u).z = 0
      ∧ conv sqrt t q K_inv u
        = Vector3f.add t
            (Vector3f.smul (-t.z / (bearing sqrt q K_inv u).z) (bearing sqrt q K_inv u)) := by
  have hc := conv_of_visible sqrt t q K_inv u h
  have hz : (bearing sqrt q K_inv u).z ≠ 0 := by
    intro h0
    rw [h0] at h
    norm_num at h
  refine ⟨hc, by rw [hc], ?_⟩
  rw [hc]
  simp only [Vector3f.add, Vector3f.smul, rayParameter, Vector3f.mk.injEq]
  refine ⟨by ring, by ring, ?_⟩
  field_simp

/-- Witness for C1: the camera at `(1, 2, 3)` looking straight down, pixel
`(775, 300)`; the bearing is `(3/5, 0, -4/5)` and the ground point
`(13/4, 2, 0)`. -/
theorem conv_intersection_witness :
    (bearing Rat.sqrt downQ scenarioK.inverse ⟨775, 300⟩).z ≤ -(1 / 10)
      ∧ conv Rat.sqrt ⟨1, 2, 3⟩ downQ scenarioK.inverse ⟨775, 300⟩ = ⟨13 / 4, 2, 0⟩ := by
  have hb : (bearing Rat.sqrt downQ scenarioK.inverse ⟨775, 300⟩).z ≤ -(1 / 10) := by
    rw [bearing_scenario_slant]
    norm_num
  refine ⟨hb, ?_⟩
  rw [(conv_intersection Rat.sqrt ⟨1, 2, 3⟩ downQ scenarioK.inverse ⟨775, 300⟩ hb).1,
    bearing_scenario_slant]
  norm_num

/-- C3: absent pose short-circuit. When the pose slot is absent,
`projectEdgeOnPlane` returns with the detector unchanged for every segment
list, intrinsic matrix and stamp and whatever the library operations do:
nothing is published, no endpoint is projected, no raster is created or
drawn on, and the slot is still absent. -/
theorem absent_pose_short_circuit [FloorRing α] (ext : External α)
    (self : LineSegmentDetector α) (lines : List (Vec4f α)) (K_cv : Matrix3f α)
    (stamp : Nat) (h : self.camera_extrinsic_ = none) :
    projectEdgeOnPlane ext self lines K_cv stamp = self
      ∧ (projectEdgeOnPlane ext self lines K_cv stamp).pub_image_ = self.pub_image_
      ∧ (projectEdgeOnPlane ext self lines K_cv stamp).camera_extrinsic_ = none := by
  have h1 : projectEdgeOnPlane ext self lines K_cv stamp = self := by
    unfold projectEdgeOnPlane
    rw [h]
  rw [h1]
  exact ⟨rfl, rfl, h⟩

/-- Witness for C3: a detector with an absent pose and one segment. -/
theorem absent_pose_short_circuit_witness :
    (⟨none, 800, 20, []⟩ : LineSegmentDetector ℚ).camera_extrinsic_ = none
      ∧ (projectEdgeOnPlane ratExternal ⟨none, 800, 20, []⟩ [⟨775, 300, 400, 300⟩]
          scenarioK 7).pub_image_ = [] :=
  ⟨rfl, (absent_pose_short_circuit ratExternal ⟨none, 800, 20, []⟩ [⟨775, 300, 400, 300⟩]
    scenarioK 7 rfl).2.1⟩

/-- C5, as stated, fails: in scenario 1 (identity rotation, pixel at the
principal point) the bearing is `(0, 0, 1)`, not `(0, 0, -1)`; the visibility
test rejects it, and an edge ending at the returned point is not drawn. -/
theorem scenario1_counterexample :
    bearing Rat.sqrt Quaternionf.Identity scenarioK.inverse ⟨400, 300⟩ ≠ ⟨0, 0, -1⟩
      ∧ (bearing Rat.sqrt Quaternionf.Identity scenarioK.inverse ⟨400, 300⟩).z > -(1 / 10)
      ∧ drawEdges ratExternal.line (toCvPoint 400 400 (20 : ℚ)) (Mat.zeros 800 800)
          [⟨conv Rat.sqrt ⟨0, 0, 1⟩ Quaternionf.Identity scenarioK.inverse ⟨400, 300⟩,
            ⟨5, 1, 0⟩⟩]
          ≠ ratExternal.line (Mat.zeros 800 800)
              (toCvPoint 400 400 (20 : ℚ)
                (conv Rat.sqrt ⟨0, 0, 1⟩ Quaternionf.Identity scenarioK.inverse ⟨400, 300⟩))
              (toCvPoint 400 400 (20 : ℚ) ⟨5, 1, 0⟩) := by
  have hb : (bearing Rat.sqrt Quaternionf.Identity scenarioK.inverse ⟨400, 300⟩).z
      > -(1 / 10) := by
    rw [bearing_scenario_up]
    norm_num
  refine ⟨?_, hb, ?_⟩
  · rw [bearing_scenario_up]
    norm_num
  · rw [conv_of_rejected Rat.sqrt ⟨0, 0, 1⟩ Quaternionf.Identity scenarioK.inverse ⟨400, 300⟩ hb]
    simp only [drawEdges, Vector3f.isZero_Zero, Bool.true_or, if_true]
    intro h
    have h2 : (800 : Nat) = 1 := congrArg Mat.rows h
    omega

/-- C5, amended: in scenario 1 (`t = (0,0,1)`, identity rotation, the
scenario intrinsics, pixel `(400, 300)`), with a square root that maps 1
to 1, `conv` computes the bearing `(0, 0, 1)`, the bearing fails the
visibility test, `conv` returns the zero vector, and an edge having that
point as an endpoint is skipped by the draw loop. -/
theorem scenario1_not_visible (sqrt : α → α) (h1 : sqrt 1 = 1)
    (line : Mat → Point → Point → Mat) (toPt : Vector3f α → Point) (image : Mat)
    (other : Vector3f α) :
    bearing sqrt Quaternionf.Identity (Matrix3f.inverse ⟨500, 0, 400, 0, 500, 300, 0, 0, 1⟩)
        ⟨400, 300⟩ = ⟨0, 0, 1⟩
      ∧ (bearing sqrt Quaternionf.Identity
          (Matrix3f.inverse ⟨500, 0, 400, 0, 500, 300, 0, 0, 1⟩) ⟨400, 300⟩).z > -(1 / 10)
      ∧ conv sqrt ⟨0, 0, 1⟩ Quaternionf.Identity
          (Matrix3f.inverse ⟨500, 0, 400, 0, 500, 300, 0, 0, 1⟩) ⟨400, 300⟩ = Vector3f.Zero
      ∧ drawEdges line toPt image
          [⟨conv sqrt ⟨0, 0, 1⟩ Quaternionf.Identity
              (Matrix3f.inverse ⟨500, 0, 400, 0, 500, 300, 0, 0, 1⟩) ⟨400, 300⟩, other⟩]
          = image
      ∧ drawEdges line toPt image
          [⟨other, conv sqrt ⟨0, 0, 1⟩ Quaternionf.Identity
              (Matrix3f.inverse ⟨500, 0, 400, 0, 500, 300, 0, 0, 1⟩) ⟨400, 300⟩⟩]
          = image := by
  have hbear : bearing sqrt Quaternionf.Identity
      (Matrix3f.inverse ⟨500, 0, 400, 0, 500, 300, 0, 0, 1⟩) ⟨400, 300⟩ = ⟨0, 0, 1⟩ := by
    norm_num [bearing, Quaternionf.Identity, Matrix3f.inverse,
      Matrix3f.determinant, Matrix3f.mul, Matrix3f.mulVec, Quaternionf.toRotationMatrix,
      Vector3f.normalized, Vector3f.squaredNorm, h1]
  have hb : (bearing sqrt Quaternionf.Identity
      (Matrix3f.inverse ⟨500, 0, 400, 0, 500, 300, 0, 0, 1⟩) ⟨400, 300⟩).z > -(1 / 10) := by
    rw [hbear]
    norm_num
  have hc := conv_of_rejected sqrt ⟨0, 0, 1⟩ Quaternionf.Identity
    (Matrix3f.inverse ⟨500, 0, 400, 0, 500, 300, 0, 0, 1⟩) ⟨400, 300⟩ hb
  refine ⟨hbear, hb, hc, ?_, ?_⟩
  · rw [hc]
    simp only [drawEdges, Vector3f.isZero_Zero, Bool.true_or, if_true]
  · rw [hc]
    simp only [drawEdges, Vector3f.isZero_Zero, Bool.or_true, if_true]

/-- Witness for C5: the rational square root maps 1 to 1. -/
theorem scenario1_not_visible_witness :
    Rat.sqrt 1 = 1
      ∧ conv Rat.sqrt ⟨0, 0, 1⟩ Quaternionf.Identity
          (Matrix3f.inverse ⟨500, 0, 400, 0, 500, 300, 0, 0, 1⟩) ⟨400, 300⟩ = Vector3f.Zero :=
  ⟨by norm_num, (scenario1_not_visible Rat.sqrt (by norm_num) ratExternal.line
    (toCvPoint 400 400 (20 : ℚ)) (Mat.zeros 800 800) ⟨5, 1, 0⟩).2.2.1⟩

/-- C7: empty edge map. With a pose present, when every collected edge is
skipped by the draw loop (in particular when the segment list is empty, or
when every segment has an endpoint projected to the zero vector), the one
raster `projectEdgeOnPlane` publishes has `S` rows and `S` columns of
pixels, all of them `(0, 0, 0)`, for every raster size `S`. -/
theorem empty_edge_map [FloorRing α] (ext : External α) (self : LineSegmentDetector α)
    (lines : List (Vec4f α)) (K_cv : Matrix3f α) (stamp : Nat) (extrinsic : Affine3f α)
    (hpose : self.camera_extrinsic_ = some extrinsic)
    (hskip : ∀ e ∈ collectEdges ext.sqrt extrinsic.translation
        (ext.quaternionOfLinear extrinsic.linear) K_cv.inverse lines,
      (e.p.isZero || e.q.isZero) = true) :
    (projectEdgeOnPlane ext self lines K_cv stamp).pub_image_
        = self.pub_image_
          ++ [⟨stamp, "map", "bgr8", Mat.zeros self.image_size_ self.image_size_⟩]
      ∧ (Mat.zeros self.image_size_ self.image_size_).rows = self.image_size_
      ∧ (Mat.zeros self.image_size_ self.image_size_).cols = self.image_size_
      ∧ (Mat.zeros self.image_size_ self.image_size_).data.length = self.image_size_
      ∧ ∀ row ∈ (Mat.zeros self.image_size_ self.image_size_).data,
          row.length = self.image_size_ ∧ ∀ px ∈ row, px = (0, 0, 0) := by
  refine ⟨?_, rfl, rfl, ?_, ?_⟩
  · unfold projectEdgeOnPlane
    rw [hpose]
    simp only
    rw [edgeImage_skipped ext.line self.image_size_ self.max_range_ _ hskip]
  · simp [Mat.zeros]
  · intro row hrow
    simp only [Mat.zeros, List.mem_replicate] at hrow
    rw [hrow.2]
    refine ⟨List.length_replicate _ _, ?_⟩
    intro px hpx
    exact (List.mem_replicate.mp hpx).2

/-- Witness for C7: a 4x4 raster and the camera at height 1 with the
identity rotation; the first endpoint of the segment has the bearing
`(0, 0, 1)`, which the visibility test rejects. -/
theorem empty_edge_map_witness :
    (projectEdgeOnPlane ratExternal
        ⟨some ⟨⟨0, 0, 1⟩, Quaternionf.Identity.toRotationMatrix⟩, 4, 20, []⟩
        [⟨400, 300, 775, 300⟩] scenarioK 7).pub_image_
      = [⟨7, "map", "bgr8", Mat.zeros 4 4⟩] := by
  have hq : ratExternal.quaternionOfLinear
      (Quaternionf.Identity.toRotationMatrix : Matrix3f ℚ) = Quaternionf.Identity := by
    norm_num [ratExternal, downQ, Quaternionf.Identity, Quaternionf.toRotationMatrix]
  have hskip : ∀ e ∈ collectEdges ratExternal.sqrt (⟨0, 0, 1⟩ : Vector3f ℚ)
      (ratExternal.quaternionOfLinear Quaternionf.Identity.toRotationMatrix)
      scenarioK.inverse [⟨400, 300, 775, 300⟩], (e.p.isZero || e.q.isZero) = true := by
    intro e he
    rw [hq] at he
    simp only [collectEdges, List.map_cons, List.map_nil, List.mem_singleton] at he
    rw [he]
    have hb : (bearing Rat.sqrt Quaternionf.Identity scenarioK.inverse ⟨400, 300⟩).z
        > -(1 / 10) := by
      rw [bearing_scenario_up]
      norm_num
    have hc := conv_of_rejected Rat.sqrt ⟨0, 0, 1⟩ Quaternionf.Identity scenarioK.inverse
      ⟨400, 300⟩ hb
    show ((conv Rat.sqrt ⟨0, 0, 1⟩ Quaternionf.Identity scenarioK.inverse
      ⟨400, 300⟩).isZero || _) = true
    rw [hc, Vector3f.isZero_Zero]
    rfl
  exact (empty_edge_map ratExternal
    ⟨some ⟨⟨0, 0, 1⟩, Quaternionf.Identity.toRotationMatrix⟩, 4, 20, []⟩
    [⟨400, 300, 775, 300⟩] scenarioK 7 ⟨⟨0, 0, 1⟩, Quaternionf.Identity.toRotationMatrix⟩
    rfl hskip).1

/-- C8: keep-last-good pose slot. For every sequence of lookups and every
detector state, the slot is absent after the sequence exactly when it was
absent before and no lookup of the sequence succeeded; a failed lookup
leaves the detector (and so the slot, absent or holding a prior pose)
exactly as it was; and after a successful lookup, also at the end of any
sequence, the slot holds that lookup's translation and the rotation matrix
of its quaternion. -/
theorem pose_slot_keep_last_good (lookups : List (Option (Transform α)))
    (self : LineSegmentDetector α) (ts : Transform α) :
    ((listenAll lookups self).camera_extrinsic_ = none
        ↔ self.camera_extrinsic_ = none ∧ ∀ r ∈ lookups, r = none)
      ∧ listenExtrinsicTf none self = self
      ∧ listenAll (lookups ++ [none]) self = listenAll lookups self
      ∧ (listenExtrinsicTf (some ts) self).camera_extrinsic_
          = some ⟨ts.translation, ts.rotation.toRotationMatrix⟩
      ∧ (listenAll (lookups ++ [some ts]) self).camera_extrinsic_
          = some ⟨ts.translation, ts.rotation.toRotationMatrix⟩ := by
  refine ⟨listenAll_absent_iff lookups self, rfl, ?_, rfl, ?_⟩
  · rw [listenAll_append]
    rfl
  · rw [listenAll_append]
    rfl

/-- C9: the visibility test bounds the range. For every translation `t` with
`t.z >= 0` and every pixel whose bearing `b` has unit length and
`b.z <= -0.1`, the parameter `l = -t.z / b.z` of `conv` satisfies
`0 <= l <= 10 * t.z`, and the returned point `(px, py, 0)` satisfies
`(px - t.x)^2 + (py - t.y)^2 <= 99 * t.z^2`. -/
theorem visibility_bounds_range (sqrt : α → α) (t : Vector3f α) (q : Quaternionf α)
    (K_inv : Matrix3f α) (u : Vector2f α)
    (ht : 0 ≤ t.z)
    (hunit : (bearing sqrt q K_inv u).squaredNorm = 1)
    (hb : (bearing sqrt q K_inv u).z ≤ -(1 / 10)) :
    0 ≤ rayParameter t (bearing sqrt q K_inv u)
      ∧ rayParameter t (bearing sqrt q K_inv u) ≤ 10 * t.z
      ∧ (conv sqrt t q K_inv u).z = 0
      ∧ ((conv sqrt t q K_inv u).x - t.x) ^ 2 + ((conv sqrt t q K_inv u).y - t.y) ^ 2
          ≤ 99 * t.z ^ 2 := by
  rw [conv_of_visible sqrt t q K_inv u hb]
  generalize bearing sqrt q K_inv u = b at hunit hb
  obtain ⟨bx, by1, bz⟩ := b
  simp only [Vector3f.squaredNorm] at hunit
  simp only at hb
  simp only [rayParameter]
  have hneg : bz < 0 := by linarith
  have hd : 0 < -bz := by linarith
  have hl : -t.z / bz = t.z / -bz := by
    rw [div_neg, neg_div]
  have hmul : t.z / -bz * -bz = t.z := div_mul_cancel₀ _ (ne_of_gt hd)
  have h0 : 0 ≤ t.z / -bz := div_nonneg ht (le_of_lt hd)
  have h10 : t.z / -bz ≤ 10 * t.z := by
    rw [div_le_iff₀ hd]
    nlinarith
  rw [hl]
  refine ⟨h0, h10, trivial, ?_⟩
  have hsq : (t.x + bx * (t.z / -bz) - t.x) ^ 2 + (t.y + by1 * (t.z / -bz) - t.y) ^ 2
      = (t.z / -bz) ^ 2 - t.z ^ 2 := by
    have hxy : bx * bx + by1 * by1 = 1 - bz * bz := by linarith
    calc (t.x + bx * (t.z / -bz) - t.x) ^ 2 + (t.y + by1 * (t.z / -bz) - t.y) ^ 2
        = (bx * bx + by1 * by1) * (t.z / -bz) ^ 2 := by ring
      _ = (1 - bz * bz) * (t.z / -bz) ^ 2 := by rw [hxy]
      _ = (t.z / -bz) ^ 2 - (t.z / -bz * -bz) ^ 2 := by ring
      _ = (t.z / -bz) ^ 2 - t.z ^ 2 := by rw [hmul]
  rw [hsq]
  nlinarith

/-- Witness for C9: the camera at `(1, 2, 3)` looking straight down, pixel
`(775, 300)` with the unit bearing `(3/5, 0, -4/5)`: `l = 15/4` and the
ground point is `(13/4, 2, 0)`. -/
theorem visibility_bounds_range_witness :
    (0 : ℚ) ≤ 3
      ∧ (bearing Rat.sqrt downQ scenarioK.inverse ⟨775, 300⟩).squaredNorm = 1
      ∧ (bearing Rat.sqrt downQ scenarioK.inverse ⟨775, 300⟩).z ≤ -(1 / 10)
      ∧ rayParameter (⟨1, 2, 3⟩ : Vector3f ℚ)
          (bearing Rat.sqrt downQ scenarioK.inverse ⟨775, 300⟩) = 15 / 4
      ∧ rayParameter (⟨1, 2, 3⟩ : Vector3f ℚ)
          (bearing Rat.sqrt downQ scenarioK.inverse ⟨775, 300⟩) ≤ 10 * 3 := by
  have hu : (bearing Rat.sqrt downQ scenarioK.inverse ⟨775, 300⟩).squaredNorm = 1 := by
    rw [bearing_scenario_slant]
    norm_num [Vector3f.squaredNorm]
  have hb : (bearing Rat.sqrt downQ scenarioK.inverse ⟨775, 300⟩).z ≤ -(1 / 10) := by
    rw [bearing_scenario_slant]
    norm_num
  refine ⟨by norm_num, hu, hb, ?_,
    (visibility_bounds_range Rat.sqrt ⟨1, 2, 3⟩ downQ scenarioK.inverse ⟨775, 300⟩
      (by norm_num) hu hb).2.1⟩
  rw [bearing_scenario_slant]
  norm_num [rayParameter]

/-- C10: the degenerate marker collides with a valid intersection. For the
camera at `(0, 0, 1)` looking straight down and the pixel at the principal
point, the bearing `(0, 0, -1)` passes the visibility test and `conv` still returns
the zero vector; the draw loop then skips every edge with this ground point
as an endpoint; so a zero result of `conv` does not imply that the
visibility test rejected the ray. -/
theorem marker_collides_with_valid_point :
    bearing Rat.sqrt downQ scenarioK.inverse ⟨400, 300⟩ = ⟨0, 0, -1⟩
      ∧ (bearing Rat.sqrt downQ scenarioK.inverse ⟨400, 300⟩).z ≤ -(1 / 10)
      ∧ conv Rat.sqrt ⟨0, 0, 1⟩ downQ scenarioK.inverse ⟨400, 300⟩ = Vector3f.Zero
      ∧ (∀ (line : Mat → Point → Point → Mat) (toPt : Vector3f ℚ → Point) (image : Mat)
          (other : Vector3f ℚ),
          drawEdges line toPt image
              [⟨conv Rat.sqrt ⟨0, 0, 1⟩ downQ scenarioK.inverse ⟨400, 300⟩, other⟩] = image
            ∧ drawEdges line toPt image
              [⟨other, conv Rat.sqrt ⟨0, 0, 1⟩ downQ scenarioK.inverse ⟨400, 300⟩⟩] = image)
      ∧ ¬ ∀ (t : Vector3f ℚ) (q : Quaternionf ℚ) (K_inv : Matrix3f ℚ) (u : Vector2f ℚ),
          conv Rat.sqrt t q K_inv u = Vector3f.Zero
            → (bearing Rat.sqrt q K_inv u).z > -(1 / 10) := by
  have hb : (bearing Rat.sqrt downQ scenarioK.inverse ⟨400, 300⟩).z ≤ -(1 / 10) := by
    rw [bearing_scenario_down]
    norm_num
  have hc : conv Rat.sqrt ⟨0, 0, 1⟩ downQ scenarioK.inverse ⟨400, 300⟩ = Vector3f.Zero := by
    rw [conv_of_visible _ _ _ _ _ hb, bearing_scenario_down]
    norm_num [rayParameter, Vector3f.Zero]
  refine ⟨bearing_scenario_down, hb, hc, ?_, ?_⟩
  · intro line toPt image other
    rw [hc]
    constructor
    · simp only [drawEdges, Vector3f.isZero_Zero, Bool.true_or, if_true]
    · simp only [drawEdges, Vector3f.isZero_Zero, Bool.or_true, if_true]
  · intro h
    exact absurd (h ⟨0, 0, 1⟩ downQ scenarioK.inverse ⟨400, 300⟩ hc) (not_lt.mpr hb)

end Claims

end YabLoc
